import Mathlib

set_option maxRecDepth 8000

/- Verification of the liquidation-history fetch/flatten/CSV-export script
   (script.js).  The JavaScript functions parseLiquidationData, convertToCSV,
   downloadCSV and fetchAndDownload are shallowly embedded below.  JavaScript
   objects are modelled as association lists whose order is the key
   enumeration order; JSON scalar values are modelled by JsVal.  The
   ECMAScript Date semantics used by the script (new Date(ms).toISOString,
   parsing of YYYY-MM-DD date strings, the representable range of
   8.64e15 ms) are modelled with a proleptic-Gregorian calendar.
   Modelling boundaries, each noted where relevant: numbers are modelled as
   integers; Date parsing of arbitrary (non YYYY-MM-DD) strings is not
   modelled; history items are modelled as objects. -/

/- ===== Calendar: days-since-epoch from a civil date and back ===== -/

/- Day number (days since 1970-01-01) of a proleptic-Gregorian civil date. -/
def yAdj (y m : Int) : Int := if m ≤ 2 then y - 1 else y

def eraC (y m : Int) : Int := yAdj y m / 400

def yoeC (y m : Int) : Int := yAdj y m - eraC y m * 400

def doyC (m d : Int) : Int := (153 * (if m > 2 then m - 3 else m + 9) + 2) / 5 + d - 1

def doeC (y m d : Int) : Int := yoeC y m * 365 + yoeC y m / 4 - yoeC y m / 100 + doyC m d

def daysFromCivil (y m d : Int) : Int := eraC y m * 146097 + doeC y m d - 719468

/- Civil date of a day number, computed layer by layer: era of 400 years,
   century within era, year within century, day within year, month. -/
def eraOf (z : Int) : Int := (z + 719468) / 146097

def doeOf (z : Int) : Int := (z + 719468) % 146097

def centOf (z : Int) : Int := (4 * doeOf z + 3) / 146097

def docOf (z : Int) : Int := doeOf z - 146097 * centOf z / 4

def yocOf (z : Int) : Int := (4 * docOf z + 3) / 1461

def doyOf (z : Int) : Int := docOf z - 1461 * yocOf z / 4

def mpOf (z : Int) : Int := (5 * doyOf z + 2) / 153

def dayOf (z : Int) : Int := doyOf z - (153 * mpOf z + 2) / 5 + 1

def monthOf (z : Int) : Int := if mpOf z < 10 then mpOf z + 3 else mpOf z - 9

def yearOf (z : Int) : Int :=
  (if monthOf z ≤ 2 then 1 else 0) + eraOf z * 400 + 100 * centOf z + yocOf z

def civilFromDays (z : Int) : Int × Int × Int := (yearOf z, monthOf z, dayOf z)

/- ===== ECMAScript epoch-milliseconds decomposition and ISO rendering ===== -/

def epochDay (t : Int) : Int := t / 86400000

def msOfDay (t : Int) : Int := t % 86400000

def hourOf (t : Int) : Int := msOfDay t / 3600000

def minuteOf (t : Int) : Int := msOfDay t % 3600000 / 60000

def secondOf (t : Int) : Int := msOfDay t % 60000 / 1000

def milliOf (t : Int) : Int := msOfDay t % 1000

/- Zero-padded decimal rendering of a nonnegative integer, width w. -/
def padNum (w : Nat) (n : Int) : String :=
  let s := toString n.toNat
  String.mk (List.replicate (w - s.length) '0') ++ s

/- Year field of Date.prototype.toISOString: four digits for 0..9999,
   otherwise an expanded, signed six-digit year. -/
def yearStr (y : Int) : String :=
  if 0 ≤ y ∧ y ≤ 9999 then padNum 4 y
  else (if y < 0 then "-" else "+") ++ padNum 6 (Int.ofNat y.natAbs)

def renderISO (y mo d hh mi ss ms : Int) : String :=
  yearStr y ++ "-" ++ padNum 2 mo ++ "-" ++ padNum 2 d ++ "T" ++
    padNum 2 hh ++ ":" ++ padNum 2 mi ++ ":" ++ padNum 2 ss ++ "." ++ padNum 3 ms ++ "Z"

/- Model of new Date(t).toISOString() for an integer millisecond epoch t.
   Outside the representable ECMAScript time range of 8.64e15 ms the Date
   is invalid and toISOString throws a RangeError, modelled by none. -/
def toISOString (t : Int) : Option String :=
  if t < -8640000000000000 ∨ 8640000000000000 < t then none
  else
    some (renderISO (yearOf (epochDay t)) (monthOf (epochDay t)) (dayOf (epochDay t))
      (hourOf t) (minuteOf t) (secondOf t) (milliOf t))

/- Millisecond epoch denoted by civil UTC components (spec-side inverse). -/
def epochMsOfCivil (y mo d hh mi ss ms : Int) : Int :=
  86400000 * daysFromCivil y mo d + 3600000 * hh + 60000 * mi + 1000 * ss + ms

/- ===== JSON scalar values and JavaScript objects ===== -/

inductive JsVal where
  | null
  | bool (b : Bool)
  | num (n : Int)
  | str (s : String)
deriving DecidableEq

deriving instance DecidableEq for Except

/- JavaScript truthiness of a scalar value. -/
def truthy : JsVal → Bool
  | .null => false
  | .bool b => b
  | .num n => n != 0
  | .str s => s != ""

/- A JavaScript object: association list in key enumeration order. -/
abbrev Record := List (String × JsVal)

/- Property read (undefined is none). -/
def jsGet (r : Record) (k : String) : Option JsVal :=
  (r.find? (fun p => p.1 == k)).map (fun p => p.2)

/- Property write: an existing key keeps its position, a new key is appended
   (JavaScript object key-order semantics). -/
def jsSet : Record → String → JsVal → Record
  | [], k, v => [(k, v)]
  | p :: rest, k, v => if p.1 = k then (k, v) :: rest else p :: jsSet rest k v

/- String(v) for a scalar value.  Numbers are rendered in decimal; the
   exponent form used by JavaScript for magnitudes at or above 1e21 is not
   modelled. -/
def jsToString : JsVal → String
  | .null => "null"
  | .bool b => if b then "true" else "false"
  | .num n => toString n
  | .str s => s

/- ===== parseLiquidationData (script.js lines 23-46) ===== -/

/- The history field of a top-level entry as seen by the shape checks:
   missing also stands for any falsy value, notArray for a truthy
   non-array value. -/
inductive HistField where
  | missing
  | notArray
  | arr (items : List Record)
deriving DecidableEq

structure SymbolData where
  symbol : Option JsVal
  history : HistField
deriving DecidableEq

/- A top-level element of the API response array: nullish values throw on
   property access, other primitives yield undefined properties, objects
   carry the two observed fields. -/
inductive EntryVal where
  | nullish
  | prim (v : JsVal)
  | data (sd : SymbolData)
deriving DecidableEq

/- The decoded JSON body handed to parseLiquidationData. -/
inductive ApiResponse where
  | nullish
  | notArray
  | arr (entries : List EntryVal)
deriving DecidableEq

def truthyOpt : Option JsVal → Bool
  | none => false
  | some v => truthy v

/- new Date(value) time value for a truthy t field.  Numbers give their own
   millisecond value, true coerces to 1; Date parsing of strings is outside
   the model (no claim depends on it). -/
def dateValue : JsVal → Option Int
  | .num n => some n
  | .bool true => some 1
  | _ => none

/- Per history item (script.js lines 36-43): stamp symbol, and if t is
   truthy stamp timestamp_iso; an invalid time value throws. -/
def flattenEntry (symbol : JsVal) (e : Record) : Except String Record :=
  let e1 := jsSet e "symbol" symbol
  match jsGet e1 "t" with
  | some tv =>
    if truthy tv then
      match dateValue tv with
      | some n =>
        match toISOString n with
        | some s => .ok (jsSet e1 "timestamp_iso" (.str s))
        | none => .error "RangeError: Invalid time value"
      | none => .error "Date conversion of non-numeric t not modelled"
    else .ok e1
  | none => .ok e1

def flattenItems (symbol : JsVal) : List Record → Except String (List Record)
  | [] => .ok []
  | e :: rest =>
    match flattenEntry symbol e with
    | .error m => .error m
    | .ok r =>
      match flattenItems symbol rest with
      | .error m => .error m
      | .ok rs => .ok (r :: rs)

/- Per top-level entry (script.js lines 30-44): skip the whole entry when
   the entry is falsy, its symbol is falsy, or its history is not an array. -/
def processEntry : EntryVal → Except String (List Record)
  | .nullish => .ok []
  | .prim _ => .ok []
  | .data sd =>
    if truthyOpt sd.symbol then
      match sd.history with
      | .arr items => flattenItems (sd.symbol.getD .null) items
      | _ => .ok []
    else .ok []

def parseLiquidationGo : List EntryVal → Except String (List Record)
  | [] => .ok []
  | e :: rest =>
    match processEntry e with
    | .error m => .error m
    | .ok l =>
      match parseLiquidationGo rest with
      | .error m => .error m
      | .ok ls => .ok (l ++ ls)

/- script.js lines 23-46. -/
def parseLiquidationData : ApiResponse → Except String (List Record)
  | .nullish => .ok []
  | .notArray => .ok []
  | .arr entries => parseLiquidationGo entries

/- ===== convertToCSV (script.js lines 49-73) ===== -/

/- Array.prototype.join semantics. -/
def joinSep (sep : String) : List String → String
  | [] => ""
  | [x] => x
  | x :: xs => x ++ sep ++ joinSep sep xs

def needsQuoting (s : String) : Bool :=
  s.data.any (fun c => c == ',' || c == '\n' || c == '"')

/- cellString.replace of every double quote by two double quotes. -/
def doubleQuotesChars : List Char → List Char
  | [] => []
  | c :: cs => if c = '"' then '"' :: '"' :: doubleQuotesChars cs else c :: doubleQuotesChars cs

/- script.js lines 62-68: quote a cell exactly when it contains a comma,
   a newline or a double quote. -/
def escapeCell (s : String) : String :=
  if needsQuoting s then "\"" ++ String.mk (doubleQuotesChars s.data) ++ "\"" else s

/- script.js line 62: null and undefined render as the empty string. -/
def cellString : Option JsVal → String
  | none => ""
  | some .null => ""
  | some v => jsToString v

/- script.js line 56: symbol and timestamp_iso first, then the remaining
   keys of the first record in their original order. -/
def orderedHeaders (r : Record) : List String :=
  "symbol" :: "timestamp_iso" ::
    (r.map Prod.fst).filter (fun h => h != "symbol" && h != "timestamp_iso")

def csvCells (hdrs : List String) (row : Record) : List String :=
  hdrs.map (fun h => escapeCell (cellString (jsGet row h)))

/- script.js lines 49-73; the argument is an Option so that a null or
   undefined argument (the falsy check on line 50) is representable. -/
def convertToCSV : Option (List Record) → String
  | none => ""
  | some [] => ""
  | some (r0 :: rest) =>
    joinSep "\n"
      (joinSep "," (orderedHeaders r0) ::
        (r0 :: rest).map (fun row => joinSep "," (csvCells (orderedHeaders r0) row)))

/- ===== A standard CSV reader (spec side of the round-trip claim) ===== -/

/- Modelled from the spec: standard CSV parsing rules (RFC-4180 style, with
   newline as the record separator used by the serializer): fields are
   separated by commas, records by newlines, a quoted field may contain
   commas, newlines and doubled double quotes.  One character at a time
   through a small state machine. -/
structure CsvState where
  cur : List Char
  row : List String
  rows : List (List String)
  inQ : Bool
  justClosed : Bool
deriving DecidableEq

def csvStep (st : CsvState) (c : Char) : CsvState :=
  if st.inQ then
    if c = '"' then { st with inQ := false, justClosed := true }
    else { st with cur := st.cur ++ [c] }
  else if st.justClosed ∧ c = '"' then
    { st with cur := st.cur ++ ['"'], inQ := true, justClosed := false }
  else if c = ',' then
    { cur := [], row := st.row ++ [String.mk st.cur], rows := st.rows,
      inQ := false, justClosed := false }
  else if c = '\n' then
    { cur := [], row := [], rows := st.rows ++ [st.row ++ [String.mk st.cur]],
      inQ := false, justClosed := false }
  else if c = '"' then
    { st with inQ := true, justClosed := false }
  else
    { st with cur := st.cur ++ [c], justClosed := false }

def csvRun : CsvState → List Char → CsvState
  | st, [] => st
  | st, c :: cs => csvRun (csvStep st c) cs

def csvInit : CsvState := ⟨[], [], [], false, false⟩

/- End of input closes the current field and record. -/
def csvClose (st : CsvState) : List (List String) :=
  st.rows ++ [st.row ++ [String.mk st.cur]]

def parseCSV (s : String) : List (List String) :=
  csvClose (csvRun csvInit s.data)

/- ===== fetchAndDownload (script.js lines 97-186) ===== -/

/- Leap years and month lengths of the proleptic Gregorian calendar. -/
def isLeap (y : Int) : Bool := (y % 4 == 0 && y % 100 != 0) || (y % 400 == 0)

def daysInMonth (y m : Int) : Int :=
  if m = 2 then (if isLeap y then 29 else 28)
  else if m = 4 ∨ m = 6 ∨ m = 9 ∨ m = 11 then 30 else 31

def digitsToNat (l : List Char) : Nat := l.foldl (fun a c => a * 10 + (c.toNat - 48)) 0

/- Split a character list at every dash. -/
def splitDash : List Char → List (List Char)
  | [] => [[]]
  | c :: rest =>
    match splitDash rest with
    | [] => [[c]]
    | g :: gs => if c = '-' then [] :: g :: gs else (c :: g) :: gs

/- Modelled ECMAScript parsing of the YYYY-MM-DD prefix of the local
   date-time strings built on script.js lines 114-115: four-two-two digit
   groups with in-range month and day give a valid Date, anything else is
   an Invalid Date (NaN timestamps). -/
def parseDateYMD (s : String) : Option (Int × Int × Int) :=
  match splitDash s.data with
  | [ys, ms, ds] =>
    if ys.length = 4 ∧ ms.length = 2 ∧ ds.length = 2 ∧
        ys.all Char.isDigit ∧ ms.all Char.isDigit ∧ ds.all Char.isDigit then
      let y : Int := Int.ofNat (digitsToNat ys)
      let m : Int := Int.ofNat (digitsToNat ms)
      let d : Int := Int.ofNat (digitsToNat ds)
      if 1 ≤ m ∧ m ≤ 12 ∧ 1 ≤ d ∧ d ≤ daysInMonth y m then some (y, m, d) else none
    else none
  | _ => none

/- script.js line 114: epoch seconds of local midnight starting the date;
   offMs is the local UTC offset in milliseconds at that instant. -/
def fromTimestamp (y m d : Int) (offMs : Int) : Int :=
  (86400000 * daysFromCivil y m d - offMs) / 1000

/- script.js line 115: epoch seconds of 23:59:59.999 local time on the date. -/
def toTimestamp (y m d : Int) (offMs : Int) : Int :=
  (86400000 * daysFromCivil y m d + 86399999 - offMs) / 1000

/- String.prototype.trim for the whitespace characters occurring in form
   values (the full Unicode whitespace set of JavaScript is not modelled). -/
def jsTrim (s : String) : String :=
  String.mk (((s.data.dropWhile Char.isWhitespace).reverse.dropWhile Char.isWhitespace).reverse)

structure FormInputs where
  apiKey : String
  symbols : String
  interval : String
  startDateStr : String
  endDateStr : String
  convertToUsd : Bool

/- The observable result of the single fetch: the promise rejects, the
   response is non-2xx (jsonError: none when the body is not JSON, some
   none when the parsed error field is falsy, some (some e) otherwise),
   the success body fails to parse as JSON, or a decoded JSON body. -/
inductive FetchOutcome where
  | networkError (msg : String)
  | httpError (status : Nat) (statusText : String) (jsonError : Option (Option String))
  | bodyNotJson (msg : String)
  | success (body : ApiResponse)

/- The user-visible effects of a run. -/
inductive UiEvent where
  | disableButton
  | enableButton
  | statusMsg (msg : String) (severity : String)
  | download (filename : String) (content : String)
  | alertMsg (msg : String)
deriving DecidableEq

def isButtonEvent : UiEvent → Bool
  | .disableButton => true
  | .enableButton => true
  | _ => false

def updateStatus (msg severity : String) : UiEvent := .statusMsg msg severity

/- script.js line 170: characters outside [a-zA-Z0-9_,.-] become an
   underscore, then the result is cut to 50 characters. -/
def sanitizeSymbols (s : String) : String :=
  String.mk ((s.data.map (fun c =>
    if c.isAlphanum ∨ c = '_' ∨ c = ',' ∨ c = '.' ∨ c = '-' then c else '_')).take 50)

def makeFilename (symbols interval startDateStr endDateStr : String) : String :=
  "coinalyze_liquidations_" ++ sanitizeSymbols symbols ++ "_" ++ interval ++ "_" ++
    startDateStr ++ "_to_" ++ endDateStr ++ ".csv"

/- script.js lines 76-93: a supported runtime downloads the blob through a
   transient anchor, otherwise an alert is shown. -/
def downloadCSV (support : Bool) (csvString filename : String) : List UiEvent :=
  if support then [.download filename csvString]
  else [.alertMsg "CSV download is not supported in your browser."]

/- item.history absent or empty, for the every() callback on line 156;
   reading the property of a nullish item throws. -/
def historyEmptyish : EntryVal → Except String Bool
  | .nullish => .error "TypeError: Cannot read properties of null"
  | .prim _ => .ok true
  | .data sd =>
    match sd.history with
    | .missing => .ok true
    | .notArray => .ok false
    | .arr items => .ok (items.length == 0)

def everyEmpty : List EntryVal → Except String Bool
  | [] => .ok true
  | e :: rest =>
    match historyEmptyish e with
    | .error m => .error m
    | .ok false => .ok false
    | .ok true => everyEmpty rest

/- The emptiness test on script.js line 156. -/
def isEmptyResponse : ApiResponse → Except String Bool
  | .nullish => .ok true
  | .notArray => .ok false
  | .arr [] => .ok true
  | .arr (e :: rest) => everyEmpty (e :: rest)

/- Body of the try block (script.js lines 138-181), as the event list it
   produces; a thrown error is converted by the catch into an error status. -/
def tryBody (symbols : String) (inp : FormInputs) (outcome : FetchOutcome)
    (support : Bool) : List UiEvent :=
  match outcome with
  | .networkError m => [updateStatus ("Error: " ++ m) "error"]
  | .bodyNotJson m => [updateStatus ("Error: " ++ m) "error"]
  | .httpError status statusText jsonError =>
    let msg :=
      match jsonError with
      | none => "HTTP error " ++ toString status ++ ": " ++ statusText
      | some none => "Error " ++ toString status ++ ": " ++ statusText
      | some (some e) => "Error " ++ toString status ++ ": " ++ e
    [updateStatus ("Error: " ++ msg) "error"]
  | .success body =>
    match isEmptyResponse body with
    | .error m => [updateStatus ("Error: " ++ m) "error"]
    | .ok true => [updateStatus "No liquidation data found for the specified parameters." "info"]
    | .ok false =>
      updateStatus "Processing data..." "info" ::
        match parseLiquidationData body with
        | .error m => [updateStatus ("Error: " ++ m) "error"]
        | .ok parsed =>
          if parsed.length = 0 then
            [updateStatus "No valid history data found after parsing." "info"]
          else
            let csvData := convertToCSV (some parsed)
            if csvData ≠ "" then
              downloadCSV support csvData
                  (makeFilename symbols inp.interval inp.startDateStr inp.endDateStr) ++
                [updateStatus ("Successfully downloaded data for " ++
                  toString parsed.length ++ " records.") "success"]
            else [updateStatus "Could not convert data to CSV." "error"]

/- script.js lines 97-186 as the event trace of one invocation.  off1 and
   off2 are the local UTC offsets (ms) in effect at the start instant and
   the end instant; support is the download-attribute capability. -/
def fetchAndDownload (inp : FormInputs) (outcome : FetchOutcome)
    (off1 off2 : Int) (support : Bool) : List UiEvent :=
  let apiKey := jsTrim inp.apiKey
  let symbols := jsTrim inp.symbols
  if apiKey = "" ∨ symbols = "" ∨ inp.startDateStr = "" ∨ inp.endDateStr = "" then
    [updateStatus "Please fill in API Key, Symbols, Start Date, and End Date." "error"]
  else
    match parseDateYMD inp.startDateStr, parseDateYMD inp.endDateStr with
    | some (ys, ms, ds), some (ye, me, de) =>
      if fromTimestamp ys ms ds off1 ≥ toTimestamp ye me de off2 then
        [updateStatus "Invalid date range selected." "error"]
      else
        (UiEvent.disableButton ::
          updateStatus ("Fetching data for " ++ symbols ++ " from " ++
            inp.startDateStr ++ " to " ++ inp.endDateStr ++ "...") "info" ::
          tryBody symbols inp outcome support) ++ [UiEvent.enableButton]
    | _, _ => [updateStatus "Invalid date range selected." "error"]

/- ===== Specification-side quantities for the claims ===== -/

/- Records contributed by one top-level entry according to the spec count. -/
def entryCount : EntryVal → Nat
  | .data sd =>
    if truthyOpt sd.symbol then
      match sd.history with
      | .arr items => items.length
      | _ => 0
    else 0
  | _ => 0

def countSpec : ApiResponse → Nat
  | .arr entries => (entries.map entryCount).sum
  | _ => 0

/- A history item whose truthy t field, if any, is a number inside the
   representable Date range. -/
def tSafeB (e : Record) : Bool :=
  match jsGet e "t" with
  | some (.num n) => !truthy (.num n) || (decide (-8640000000000000 ≤ n) && decide (n ≤ 8640000000000000))
  | some tv => !truthy tv
  | none => true

def entrySafeB : EntryVal → Bool
  | .data sd =>
    (match sd.history with
     | .arr items => !truthyOpt sd.symbol || items.all tSafeB
     | _ => true)
  | _ => true

def respSafeB : ApiResponse → Bool
  | .arr entries => entries.all entrySafeB
  | _ => true

/- ===== Calendar lemmas ===== -/

lemma era_doe (z : Int) :
    146097 * eraOf z + doeOf z = z + 719468 ∧ 0 ≤ doeOf z ∧ doeOf z < 146097 := by
  simp only [eraOf, doeOf]; omega

lemma cent_facts (z : Int) :
    0 ≤ centOf z ∧ centOf z ≤ 3 ∧ docOf z = doeOf z - 36524 * centOf z ∧
    0 ≤ docOf z ∧ docOf z ≤ 36524 := by
  simp only [docOf, centOf, doeOf]; omega

lemma yoc_facts (z : Int) :
    0 ≤ yocOf z ∧ yocOf z ≤ 99 ∧
    docOf z = 365 * yocOf z + yocOf z / 4 + doyOf z ∧
    0 ≤ doyOf z ∧ doyOf z ≤ 365 := by
  have h := cent_facts z
  simp only [yocOf, doyOf]
  omega

lemma mp_facts (z : Int) :
    0 ≤ mpOf z ∧ mpOf z ≤ 11 ∧
    doyOf z = (153 * mpOf z + 2) / 5 + dayOf z - 1 ∧
    1 ≤ dayOf z ∧ dayOf z ≤ 31 := by
  have h := yoc_facts z
  simp only [mpOf, dayOf]
  omega

lemma month_bounds (z : Int) : 1 ≤ monthOf z ∧ monthOf z ≤ 12 := by
  have h := mp_facts z
  simp only [monthOf]
  split <;> omega

lemma year_adj (z : Int) :
    yAdj (yearOf z) (monthOf z) = eraOf z * 400 + (100 * centOf z + yocOf z) := by
  have h4 := mp_facts z
  simp only [yAdj, yearOf, monthOf]
  split_ifs <;> omega

lemma eraC_val (z : Int) : eraC (yearOf z) (monthOf z) = eraOf z := by
  have h2 := cent_facts z
  have h3 := yoc_facts z
  rw [eraC, year_adj, show eraOf z * 400 + (100 * centOf z + yocOf z)
      = (100 * centOf z + yocOf z) + 400 * eraOf z by ring,
    Int.add_mul_ediv_left _ _ (by norm_num : (400:Int) ≠ 0),
    Int.ediv_eq_zero_of_lt (by omega) (by omega)]
  ring

lemma yoeC_val (z : Int) : yoeC (yearOf z) (monthOf z) = 100 * centOf z + yocOf z := by
  rw [yoeC, eraC_val, year_adj]
  ring

lemma doyC_val (z : Int) : doyC (monthOf z) (dayOf z) = doyOf z := by
  have h4 := mp_facts z
  simp only [doyC, monthOf]
  split_ifs <;> ring_nf at h4 ⊢ <;> omega

/- The layered civil decomposition inverts daysFromCivil. -/
lemma civil_round (z : Int) :
    daysFromCivil (yearOf z) (monthOf z) (dayOf z) = z := by
  have h1 := era_doe z
  have h2 := cent_facts z
  have h3 := yoc_facts z
  have h4 := mp_facts z
  have j4 : (100 * centOf z + yocOf z) / 4 = 25 * centOf z + yocOf z / 4 := by
    rw [show 100 * centOf z + yocOf z = yocOf z + 4 * (25 * centOf z) by ring,
      Int.add_mul_ediv_left _ _ (by norm_num : (4:Int) ≠ 0)]
    ring
  have j100 : (100 * centOf z + yocOf z) / 100 = centOf z := by
    rw [show 100 * centOf z + yocOf z = yocOf z + 100 * centOf z by ring,
      Int.add_mul_ediv_left _ _ (by norm_num : (100:Int) ≠ 0),
      Int.ediv_eq_zero_of_lt (by omega) (by omega)]
    ring
  rw [daysFromCivil, doeC, eraC_val, yoeC_val, doyC_val, j4, j100]
  omega

/- Recomposing the epoch milliseconds from the rendered components. -/
lemma epoch_recompose (t : Int) :
    epochMsOfCivil (yearOf (epochDay t)) (monthOf (epochDay t)) (dayOf (epochDay t))
      (hourOf t) (minuteOf t) (secondOf t) (milliOf t) = t := by
  rw [epochMsOfCivil, civil_round]
  have e1 : t % 86400000 % 60000 = t % 86400000 % 3600000 % 60000 :=
    (Int.emod_emod_of_dvd _ (by norm_num : (60000:Int) ∣ 3600000)).symm
  have e2 : t % 86400000 % 1000 = t % 86400000 % 3600000 % 60000 % 1000 := by
    rw [Int.emod_emod_of_dvd _ (by norm_num : (1000:Int) ∣ 60000),
      Int.emod_emod_of_dvd _ (by norm_num : (1000:Int) ∣ 3600000)]
  simp only [epochDay, hourOf, minuteOf, secondOf, milliOf, msOfDay]
  rw [e1, e2]
  omega

lemma time_bounds (t : Int) :
    0 ≤ hourOf t ∧ hourOf t ≤ 23 ∧ 0 ≤ minuteOf t ∧ minuteOf t ≤ 59 ∧
    0 ≤ secondOf t ∧ secondOf t ≤ 59 ∧ 0 ≤ milliOf t ∧ milliOf t ≤ 999 := by
  simp only [hourOf, minuteOf, secondOf, milliOf, msOfDay]
  omega

lemma toISOString_eq (t : Int) (h1 : -8640000000000000 ≤ t) (h2 : t ≤ 8640000000000000) :
    toISOString t = some (renderISO (yearOf (epochDay t)) (monthOf (epochDay t))
      (dayOf (epochDay t)) (hourOf t) (minuteOf t) (secondOf t) (milliOf t)) := by
  rw [toISOString, if_neg (by omega)]

/- ===== Object lemmas ===== -/

lemma jsGet_cons (p : String × JsVal) (l : Record) (k : String) :
    jsGet (p :: l) k = if p.1 == k then some p.2 else jsGet l k := by
  simp only [jsGet, List.find?]
  cases h : (p.1 == k) <;> simp [h]

lemma jsGet_jsSet_self (r : Record) (k : String) (v : JsVal) :
    jsGet (jsSet r k v) k = some v := by
  induction r with
  | nil => simp [jsSet, jsGet_cons, jsGet]
  | cons p rest ih =>
    by_cases h : p.1 = k
    · simp [jsSet, h, jsGet_cons]
    · simp only [jsSet, if_neg h, jsGet_cons]
      rw [if_neg (by simpa using h), ih]

lemma jsGet_jsSet_ne (r : Record) (k k2 : String) (v : JsVal) (h : k ≠ k2) :
    jsGet (jsSet r k v) k2 = jsGet r k2 := by
  have hbeq : (k == k2) = false := by simpa using h
  induction r with
  | nil => simp [jsSet, jsGet_cons, jsGet, hbeq]
  | cons p rest ih =>
    by_cases hp : p.1 = k
    · simp [jsSet, hp, jsGet_cons, hbeq]
    · simp only [jsSet, if_neg hp, jsGet_cons, ih]

/- ===== parseLiquidationData lemmas ===== -/

lemma flattenEntry_ok (sym : JsVal) (e : Record) (h : tSafeB e = true) :
    ∃ r, flattenEntry sym e = .ok r := by
  have hget : jsGet (jsSet e "symbol" sym) "t" = jsGet e "t" :=
    jsGet_jsSet_ne e "symbol" "t" sym (by decide)
  rw [tSafeB] at h
  simp only [flattenEntry, hget]
  cases hT : jsGet e "t" with
  | none => exact ⟨_, rfl⟩
  | some tv =>
    rw [hT] at h
    dsimp only
    by_cases ht : truthy tv = true
    · rw [if_pos ht]
      cases tv with
      | num n =>
        dsimp only at h
        simp only [ht, Bool.not_true, Bool.false_or, Bool.and_eq_true,
          decide_eq_true_eq] at h
        simp only [dateValue]
        rw [toISOString, if_neg (by omega)]
        exact ⟨_, rfl⟩
      | null => simp [truthy] at ht
      | bool b =>
        cases b
        · simp [truthy] at ht
        · dsimp only at h; rw [ht] at h; simp at h
      | str s => dsimp only at h; rw [ht] at h; simp at h
    · rw [if_neg ht]
      exact ⟨_, rfl⟩

lemma flattenItems_ok (sym : JsVal) (items : List Record) (h : items.all tSafeB = true) :
    ∃ l, flattenItems sym items = .ok l ∧ l.length = items.length := by
  induction items with
  | nil => exact ⟨[], rfl, rfl⟩
  | cons e rest ih =>
    simp only [List.all_cons, Bool.and_eq_true] at h
    obtain ⟨r, hr⟩ := flattenEntry_ok sym e h.1
    obtain ⟨l, hl, hlen⟩ := ih h.2
    exact ⟨r :: l, by simp [flattenItems, hr, hl], by simp [hlen]⟩

lemma processEntry_ok (e : EntryVal) (h : entrySafeB e = true) :
    ∃ l, processEntry e = .ok l ∧ l.length = entryCount e := by
  cases e with
  | nullish => exact ⟨[], rfl, rfl⟩
  | prim v => exact ⟨[], rfl, rfl⟩
  | data sd =>
    rw [entrySafeB] at h
    by_cases hs : truthyOpt sd.symbol = true
    · cases hh : sd.history with
      | arr items =>
        rw [hh] at h
        simp only [hs, Bool.not_true, Bool.false_or] at h
        obtain ⟨l, hl, hlen⟩ := flattenItems_ok (sd.symbol.getD .null) items h
        exact ⟨l, by simp [processEntry, hs, hh, hl], by simp [entryCount, hs, hh, hlen]⟩
      | missing =>
        exact ⟨[], by simp [processEntry, hs, hh], by simp [entryCount, hs, hh]⟩
      | notArray =>
        exact ⟨[], by simp [processEntry, hs, hh], by simp [entryCount, hs, hh]⟩
    · have hs2 : truthyOpt sd.symbol = false := by simpa using hs
      exact ⟨[], by simp [processEntry, hs2], by simp [entryCount, hs2]⟩

lemma parseGo_ok (entries : List EntryVal) (h : entries.all entrySafeB = true) :
    ∃ l, parseLiquidationGo entries = .ok l ∧ l.length = (entries.map entryCount).sum := by
  induction entries with
  | nil => exact ⟨[], rfl, rfl⟩
  | cons e rest ih =>
    simp only [List.all_cons, Bool.and_eq_true] at h
    obtain ⟨l1, h1, hl1⟩ := processEntry_ok e h.1
    obtain ⟨l2, h2, hl2⟩ := ih h.2
    exact ⟨l1 ++ l2, by simp [parseLiquidationGo, h1, h2], by simp [hl1, hl2]⟩

/-- C1 (amended): for every input array in which each retained entry carries
only history items whose truthy t field is a number inside the representable
Date range, the number of records returned by parseLiquidationData equals the
sum of history.length over the top-level entries that have a truthy symbol
and an array-valued history; entries failing that shape contribute zero
records and do not cause the function to fail. -/
theorem parseLiquidationData_count (resp : ApiResponse) (h : respSafeB resp = true) :
    ∃ l, parseLiquidationData resp = .ok l ∧ l.length = countSpec resp := by
  cases resp with
  | nullish => exact ⟨[], rfl, rfl⟩
  | notArray => exact ⟨[], rfl, rfl⟩
  | arr entries => exact parseGo_ok entries (by simpa [respSafeB] using h)

/-- C1 counterexample: a well-shaped entry whose single history item has a
truthy numeric t outside the representable Date range makes
parseLiquidationData fail with a RangeError instead of returning the one
record the claim promises. -/
theorem parseLiquidationData_count_cex :
    parseLiquidationData (.arr [.data ⟨some (.str "BTCUSD"),
        .arr [[("t", .num 8640000000000001)]]⟩]) = .error "RangeError: Invalid time value" ∧
    countSpec (.arr [.data ⟨some (.str "BTCUSD"),
        .arr [[("t", .num 8640000000000001)]]⟩]) = 1 := by
  constructor
  · decide
  · decide

/-- C1 witness: a mixed response with a retained entry of two items, a
falsy-symbol entry, a non-array history, a null entry and a primitive entry
yields exactly two records. -/
theorem parseLiquidationData_count_witness :
    ∃ l, parseLiquidationData (.arr
        [.data ⟨some (.str "BTCUSD"),
          .arr [[("t", .num 1700000000000), ("l", .num 100)], [("t", .num 1700000060000)]]⟩,
         .data ⟨some (.str ""), .arr [[("t", .num 5)]]⟩,
         .data ⟨some (.str "X"), .notArray⟩,
         .nullish,
         .prim (.num 7)]) = .ok l ∧
      l.length = countSpec (.arr
        [.data ⟨some (.str "BTCUSD"),
          .arr [[("t", .num 1700000000000), ("l", .num 100)], [("t", .num 1700000060000)]]⟩,
         .data ⟨some (.str ""), .arr [[("t", .num 5)]]⟩,
         .data ⟨some (.str "X"), .notArray⟩,
         .nullish,
         .prim (.num 7)]) :=
  parseLiquidationData_count _ (by decide)

/- ===== Timestamp stamping lemmas ===== -/

lemma flattenEntry_timestamp (sym : JsVal) (e : Record) (r : Record)
    (h : flattenEntry sym e = .ok r) :
    (∀ n : Int, jsGet e "t" = some (.num n) → n ≠ 0 →
      ∃ y mo d hh mi ss ms : Int,
        jsGet r "timestamp_iso" = some (.str (renderISO y mo d hh mi ss ms)) ∧
        1 ≤ mo ∧ mo ≤ 12 ∧ 1 ≤ d ∧ d ≤ 31 ∧
        0 ≤ hh ∧ hh ≤ 23 ∧ 0 ≤ mi ∧ mi ≤ 59 ∧
        0 ≤ ss ∧ ss ≤ 59 ∧ 0 ≤ ms ∧ ms ≤ 999 ∧
        epochMsOfCivil y mo d hh mi ss ms = n) ∧
    (jsGet e "t" = none → jsGet r "timestamp_iso" = jsGet e "timestamp_iso") := by
  have hget : jsGet (jsSet e "symbol" sym) "t" = jsGet e "t" :=
    jsGet_jsSet_ne e "symbol" "t" sym (by decide)
  have hti : jsGet (jsSet e "symbol" sym) "timestamp_iso" = jsGet e "timestamp_iso" :=
    jsGet_jsSet_ne e "symbol" "timestamp_iso" sym (by decide)
  simp only [flattenEntry, hget] at h
  constructor
  · intro n hTn hn0
    rw [hTn] at h
    dsimp only at h
    have ht : truthy (.num n) = true := by simp [truthy, hn0]
    rw [if_pos ht] at h
    dsimp only [dateValue] at h
    cases hiso : toISOString n with
    | none => rw [hiso] at h; exact absurd h (by simp)
    | some s =>
      rw [hiso] at h
      by_cases hr : n < -8640000000000000 ∨ 8640000000000000 < n
      · rw [toISOString, if_pos hr] at hiso
        exact absurd hiso (by simp)
      · rw [toISOString, if_neg hr] at hiso
        have hs := Option.some.inj hiso
        have hrec : r = jsSet (jsSet e "symbol" sym) "timestamp_iso" (.str s) :=
          (Except.ok.inj h).symm
        have hmb := month_bounds (epochDay n)
        have hdb := mp_facts (epochDay n)
        have htb := time_bounds n
        refine ⟨yearOf (epochDay n), monthOf (epochDay n), dayOf (epochDay n),
          hourOf n, minuteOf n, secondOf n, milliOf n, ?_,
          hmb.1, hmb.2, hdb.2.2.2.1, hdb.2.2.2.2, htb.1, htb.2.1, htb.2.2.1,
          htb.2.2.2.1, htb.2.2.2.2.1, htb.2.2.2.2.2.1, htb.2.2.2.2.2.2.1,
          htb.2.2.2.2.2.2.2, epoch_recompose n⟩
        rw [hrec, jsGet_jsSet_self, hs]
  · intro hTn
    rw [hTn] at h
    dsimp only at h
    have hrec : r = jsSet e "symbol" sym := (Except.ok.inj h).symm
    rw [hrec, hti]

lemma flattenItems_mem (sym : JsVal) (items : List Record) (l : List Record)
    (h : flattenItems sym items = .ok l) :
    ∀ r ∈ l, ∃ e, flattenEntry sym e = .ok r := by
  induction items generalizing l with
  | nil =>
    simp only [flattenItems] at h
    cases h
    intro r hr
    exact absurd hr (by simp)
  | cons e rest ih =>
    simp only [flattenItems] at h
    cases hfe : flattenEntry sym e with
    | error m => rw [hfe] at h; exact absurd h (by simp)
    | ok r0 =>
      rw [hfe] at h
      cases hfi : flattenItems sym rest with
      | error m => rw [hfi] at h; exact absurd h (by simp)
      | ok rs =>
        rw [hfi] at h
        have hl : l = r0 :: rs := (Except.ok.inj h).symm
        intro r hr
        rw [hl] at hr
        rcases List.mem_cons.mp hr with h1 | h2
        · exact ⟨e, h1 ▸ hfe⟩
        · exact ih rs hfi r h2

lemma processEntry_mem (e : EntryVal) (l : List Record)
    (h : processEntry e = .ok l) :
    ∀ r ∈ l, ∃ sym e0, flattenEntry sym e0 = .ok r := by
  cases e with
  | nullish =>
    cases h
    intro r hr
    exact absurd hr (by simp)
  | prim v =>
    cases h
    intro r hr
    exact absurd hr (by simp)
  | data sd =>
    by_cases hs : truthyOpt sd.symbol = true
    · cases hh : sd.history with
      | arr items =>
        simp only [processEntry, hs, if_true, hh] at h
        intro r hr
        obtain ⟨e0, he0⟩ := flattenItems_mem _ items l h r hr
        exact ⟨sd.symbol.getD .null, e0, he0⟩
      | missing =>
        simp only [processEntry, hs, if_true, hh] at h
        cases h
        intro r hr
        exact absurd hr (by simp)
      | notArray =>
        simp only [processEntry, hs, if_true, hh] at h
        cases h
        intro r hr
        exact absurd hr (by simp)
    · have hs2 : truthyOpt sd.symbol = false := by simpa using hs
      simp only [processEntry, hs2, Bool.false_eq_true, if_false] at h
      cases h
      intro r hr
      exact absurd hr (by simp)

lemma parseGo_mem (entries : List EntryVal) (l : List Record)
    (h : parseLiquidationGo entries = .ok l) :
    ∀ r ∈ l, ∃ sym e0, flattenEntry sym e0 = .ok r := by
  induction entries generalizing l with
  | nil =>
    cases h
    intro r hr
    exact absurd hr (by simp)
  | cons e rest ih =>
    simp only [parseLiquidationGo] at h
    cases hpe : processEntry e with
    | error m => rw [hpe] at h; exact absurd h (by simp)
    | ok l1 =>
      rw [hpe] at h
      cases hgo : parseLiquidationGo rest with
      | error m => rw [hgo] at h; exact absurd h (by simp)
      | ok l2 =>
        rw [hgo] at h
        have hl : l = l1 ++ l2 := (Except.ok.inj h).symm
        intro r hr
        rw [hl] at hr
        rcases List.mem_append.mp hr with h1 | h2
        · exact processEntry_mem e l1 hpe r h1
        · exact ih l2 hgo r h2

/-- C2 (amended): every record returned by parseLiquidationData comes from
stamping one input history entry; whenever that entry carried a truthy
(nonzero) numeric epoch field t, timestamp_iso on the record is the ISO-8601
rendering of in-range civil components whose millisecond epoch equals t, and
when t is absent, timestamp_iso is not stamped (it is exactly the field the
input entry already carried, so unset when the input lacked it). -/
theorem parseLiquidationData_timestamp (resp : ApiResponse) (l : List Record)
    (hp : parseLiquidationData resp = .ok l) :
    ∀ r ∈ l, ∃ sym e, flattenEntry sym e = .ok r ∧
      (∀ n : Int, jsGet e "t" = some (.num n) → n ≠ 0 →
        ∃ y mo d hh mi ss ms : Int,
          jsGet r "timestamp_iso" = some (.str (renderISO y mo d hh mi ss ms)) ∧
          1 ≤ mo ∧ mo ≤ 12 ∧ 1 ≤ d ∧ d ≤ 31 ∧
          0 ≤ hh ∧ hh ≤ 23 ∧ 0 ≤ mi ∧ mi ≤ 59 ∧
          0 ≤ ss ∧ ss ≤ 59 ∧ 0 ≤ ms ∧ ms ≤ 999 ∧
          epochMsOfCivil y mo d hh mi ss ms = n) ∧
      (jsGet e "t" = none → jsGet r "timestamp_iso" = jsGet e "timestamp_iso") := by
  intro r hr
  cases resp with
  | nullish =>
    cases hp
    exact absurd hr (by simp)
  | notArray =>
    cases hp
    exact absurd hr (by simp)
  | arr entries =>
    obtain ⟨sym, e, he⟩ := parseGo_mem entries l hp r hr
    exact ⟨sym, e, he, flattenEntry_timestamp sym e r he⟩

/-- C2 counterexample: a history entry carrying the numeric epoch field
t = 0 flattens to a record with no timestamp_iso at all, because the code
tests the truthiness of t rather than its presence. -/
theorem parseLiquidationData_timestamp_cex :
    parseLiquidationData (.arr [.data ⟨some (.str "A"), .arr [[("t", .num 0)]]⟩])
      = .ok [[("t", .num 0), ("symbol", .str "A")]] ∧
    jsGet [(("t" : String), JsVal.num 0), ("symbol", .str "A")] "t" = some (.num 0) ∧
    jsGet [(("t" : String), JsVal.num 0), ("symbol", .str "A")] "timestamp_iso" = none := by
  refine ⟨by decide, by decide, by decide⟩

/-- C2 witness: the record flattened from the history entry with
t = 1700000000000 carries an ISO timestamp with matching epoch. -/
theorem parseLiquidationData_timestamp_witness :
    ∃ sym e, flattenEntry sym e =
        .ok [("t", .num 1700000000000), ("symbol", .str "BTCUSD"),
             ("timestamp_iso", .str "2023-11-14T22:13:20.000Z")] ∧
      (∀ n : Int, jsGet e "t" = some (.num n) → n ≠ 0 →
        ∃ y mo d hh mi ss ms : Int,
          jsGet [(("t" : String), JsVal.num 1700000000000), ("symbol", .str "BTCUSD"),
              ("timestamp_iso", .str "2023-11-14T22:13:20.000Z")] "timestamp_iso"
            = some (.str (renderISO y mo d hh mi ss ms)) ∧
          1 ≤ mo ∧ mo ≤ 12 ∧ 1 ≤ d ∧ d ≤ 31 ∧
          0 ≤ hh ∧ hh ≤ 23 ∧ 0 ≤ mi ∧ mi ≤ 59 ∧
          0 ≤ ss ∧ ss ≤ 59 ∧ 0 ≤ ms ∧ ms ≤ 999 ∧
          epochMsOfCivil y mo d hh mi ss ms = n) ∧
      (jsGet e "t" = none →
        jsGet [(("t" : String), JsVal.num 1700000000000), ("symbol", .str "BTCUSD"),
            ("timestamp_iso", .str "2023-11-14T22:13:20.000Z")] "timestamp_iso"
          = jsGet e "timestamp_iso") :=
  parseLiquidationData_timestamp
    (.arr [.data ⟨some (.str "BTCUSD"), .arr [[("t", .num 1700000000000)]]⟩])
    [[("t", .num 1700000000000), ("symbol", .str "BTCUSD"),
      ("timestamp_iso", .str "2023-11-14T22:13:20.000Z")]]
    (by decide) _ (by decide)

/-- C6: convertToCSV of a null or empty sequence is the empty string, and
parseLiquidationData of a null or non-array input is the empty sequence,
with no error raised in either case. -/
theorem empty_input_law :
    convertToCSV none = "" ∧ convertToCSV (some []) = "" ∧
    parseLiquidationData .nullish = .ok [] ∧ parseLiquidationData .notArray = .ok [] :=
  ⟨rfl, rfl, rfl, rfl⟩

/- ===== convertToCSV lemmas ===== -/

lemma joinSep_cons (sep x y : String) (t : List String) :
    joinSep sep (x :: y :: t) = x ++ sep ++ joinSep sep (y :: t) := rfl

lemma headerPerm (l : List String) (d : l.Nodup) (h1 : "symbol" ∈ l)
    (h2 : "timestamp_iso" ∈ l) :
    ("symbol" :: "timestamp_iso" ::
      l.filter (fun h => h != "symbol" && h != "timestamp_iso")).Perm l := by
  have p1 : l.Perm ("symbol" :: l.erase "symbol") := List.perm_cons_erase h1
  have h2e : "timestamp_iso" ∈ l.erase "symbol" :=
    List.mem_erase_of_ne (by decide) |>.mpr h2
  have p2 : (l.erase "symbol").Perm
      ("timestamp_iso" :: (l.erase "symbol").erase "timestamp_iso") :=
    List.perm_cons_erase h2e
  have e1 : l.erase "symbol" = l.filter (fun h => h != "symbol") := by
    rw [List.Nodup.erase_eq_filter d]
  have e2 : (l.erase "symbol").erase "timestamp_iso"
      = l.filter (fun h => h != "symbol" && h != "timestamp_iso") := by
    rw [List.Nodup.erase_eq_filter (by rw [e1]; exact d.filter _), e1, List.filter_filter]
    apply List.filter_congr
    intro a _
    exact Bool.and_comm _ _
  have hch := (p2.symm.cons "symbol").trans p1.symm
  rw [e2] at hch
  exact hch

/-- C3 (amended): for every non-empty record sequence the CSV header line is
symbol and timestamp_iso followed by the remaining keys of the first record
in their original relative order; symbol and timestamp_iso are prepended
unconditionally, and only when both already occur among the keys of the
first record is the header a reordering (permutation) of those keys. -/
theorem convertToCSV_header (r0 : Record) (rest : List Record) :
    (∃ restStr, convertToCSV (some (r0 :: rest))
        = joinSep "," (orderedHeaders r0) ++ "\n" ++ restStr) ∧
    (orderedHeaders r0).take 2 = ["symbol", "timestamp_iso"] ∧
    (orderedHeaders r0).drop 2
      = (r0.map Prod.fst).filter (fun h => h != "symbol" && h != "timestamp_iso") ∧
    ((r0.map Prod.fst).Nodup → "symbol" ∈ r0.map Prod.fst →
      "timestamp_iso" ∈ r0.map Prod.fst →
      (orderedHeaders r0).Perm (r0.map Prod.fst)) := by
  exact ⟨⟨joinSep "\n" ((r0 :: rest).map
      (fun row => joinSep "," (csvCells (orderedHeaders r0) row))), rfl⟩,
    rfl, rfl, fun d h1 h2 => headerPerm _ d h1 h2⟩

/-- C3 counterexample: when the first record has the single key a, the
claim predicts the header a and the document a-newline-1, but the code
unconditionally prepends symbol and timestamp_iso. -/
theorem convertToCSV_header_cex :
    convertToCSV (some [[("a", JsVal.num 1)]]) = "symbol,timestamp_iso,a\n,,1" ∧
    convertToCSV (some [[("a", JsVal.num 1)]]) ≠ "a\n1" :=
  ⟨by decide, by decide⟩

/-- C3 witness: with symbol and timestamp_iso among the keys of the first
record, the header is a permutation of those keys. -/
theorem convertToCSV_header_witness :
    (orderedHeaders [("symbol", JsVal.str "B"), ("t", JsVal.num 1),
        ("timestamp_iso", JsVal.str "x")]).Perm
      ([(("symbol" : String), JsVal.str "B"), ("t", JsVal.num 1),
        ("timestamp_iso", JsVal.str "x")].map Prod.fst) :=
  (convertToCSV_header _ []).2.2.2 (by decide) (by decide) (by decide)

/-- C10 (amended): the header always begins with the two columns symbol and
timestamp_iso, also when the first record lacks those keys; a row renders an
empty cell in such a column exactly for the records that themselves lack the
key (a later record that does carry the key renders its value). -/
theorem convertToCSV_prepend (r0 : Record) (rest : List Record) :
    (orderedHeaders r0).take 2 = ["symbol", "timestamp_iso"] ∧
    (∀ row ∈ r0 :: rest, jsGet row "symbol" = none →
      (csvCells (orderedHeaders r0) row).get? 0 = some "") ∧
    (∀ row ∈ r0 :: rest, jsGet row "timestamp_iso" = none →
      (csvCells (orderedHeaders r0) row).get? 1 = some "") := by
  refine ⟨rfl, ?_, ?_⟩ <;> intro row _ hnone <;>
    simp [csvCells, orderedHeaders, hnone, cellString, escapeCell, needsQuoting]

/-- C10 counterexample: the first record lacks symbol, yet the second row
renders B rather than an empty cell in the symbol column, because its own
record carries the key. -/
theorem convertToCSV_prepend_cex :
    convertToCSV (some [[("a", JsVal.num 1)], [("symbol", JsVal.str "B"), ("a", JsVal.num 2)]])
      = "symbol,timestamp_iso,a\n,,1\nB,,2" ∧
    (csvCells (orderedHeaders [("a", JsVal.num 1)])
        [("symbol", JsVal.str "B"), ("a", JsVal.num 2)]).get? 0 = some "B" :=
  ⟨by decide, by decide⟩

/-- C10 witness: a record lacking symbol renders an empty first cell. -/
theorem convertToCSV_prepend_witness :
    (csvCells (orderedHeaders [(("a" : String), JsVal.num 1)]) [("a", JsVal.num 1)]).get? 0
      = some "" :=
  (convertToCSV_prepend [("a", JsVal.num 1)] []).2.1 _ (by decide) (by decide)

lemma rows_congr (H : List String) (rest rest2 : List Record)
    (hlen : rest.length = rest2.length)
    (hagree : ∀ p ∈ rest.zip rest2, ∀ h ∈ H, jsGet p.1 h = jsGet p.2 h) :
    rest.map (fun row => joinSep "," (csvCells H row))
      = rest2.map (fun row => joinSep "," (csvCells H row)) := by
  induction rest generalizing rest2 with
  | nil =>
    cases rest2 with
    | nil => rfl
    | cons b t2 => simp at hlen
  | cons a t ih =>
    cases rest2 with
    | nil => simp at hlen
    | cons b t2 =>
      simp only [List.map_cons]
      have hab : csvCells H a = csvCells H b := by
        apply List.map_congr_left
        intro h hh
        rw [hagree (a, b) (by simp) h hh]
      rw [hab, ih t2 (by simpa using hlen)
        (fun p hp h hh => hagree p (by simp [hp]) h hh)]

/-- C7: every row is projected onto the header set derived from the first
record, so changing later records anywhere outside those columns leaves the
document unchanged (keys only in later records produce no new columns), and
a missing field and a null field both render as the empty string. -/
theorem convertToCSV_projection (r0 : Record) (rest rest2 : List Record)
    (hlen : rest.length = rest2.length)
    (hagree : ∀ p ∈ rest.zip rest2, ∀ h ∈ orderedHeaders r0, jsGet p.1 h = jsGet p.2 h) :
    convertToCSV (some (r0 :: rest)) = convertToCSV (some (r0 :: rest2)) ∧
    cellString none = "" ∧ cellString (some .null) = "" := by
  refine ⟨?_, rfl, rfl⟩
  simp only [convertToCSV, List.map_cons]
  rw [rows_congr (orderedHeaders r0) rest rest2 hlen hagree]

/-- C7 witness: dropping the key z, which is outside the header set, from
the second record leaves the document unchanged. -/
theorem convertToCSV_projection_witness :
    convertToCSV (some [[("a", JsVal.num 1)], [("a", JsVal.num 2), ("z", JsVal.str "x")]])
      = convertToCSV (some [[("a", JsVal.num 1)], [("a", JsVal.num 2)]]) ∧
    cellString none = "" ∧ cellString (some .null) = "" :=
  convertToCSV_projection _ _ _ (by decide) (by decide)

lemma doubleQuotes_flatMap (l : List Char) :
    doubleQuotesChars l = l.flatMap (fun c => if c = '"' then ['"', '"'] else [c]) := by
  induction l with
  | nil => rfl
  | cons c cs ih =>
    by_cases h : c = '"' <;> simp [doubleQuotesChars, h, ih, List.flatMap]

lemma needsQuoting_iff (s : String) :
    needsQuoting s = true ↔ (',' ∈ s.data ∨ '\n' ∈ s.data ∨ '"' ∈ s.data) := by
  simp only [needsQuoting, List.any_eq_true, Bool.or_eq_true, beq_iff_eq]
  constructor
  · rintro ⟨c, hc, (rfl | rfl) | rfl⟩
    · exact Or.inl hc
    · exact Or.inr (Or.inl hc)
    · exact Or.inr (Or.inr hc)
  · rintro (hc | hc | hc)
    · exact ⟨_, hc, Or.inl (Or.inl rfl)⟩
    · exact ⟨_, hc, Or.inl (Or.inr rfl)⟩
    · exact ⟨_, hc, Or.inr rfl⟩

/-- C4: for every cell value, the emitted cell is the stringified value
wrapped in double quotes with embedded double quotes doubled exactly when
the string contains a comma, a newline or a double quote, and the
stringified value unchanged otherwise. -/
theorem convertToCSV_quoting (v : Option JsVal) :
    ((',' ∈ (cellString v).data ∨ '\n' ∈ (cellString v).data ∨ '"' ∈ (cellString v).data) →
      escapeCell (cellString v) = "\"" ++
        String.mk ((cellString v).data.flatMap (fun c => if c = '"' then ['"', '"'] else [c]))
        ++ "\"") ∧
    (¬(',' ∈ (cellString v).data ∨ '\n' ∈ (cellString v).data ∨ '"' ∈ (cellString v).data) →
      escapeCell (cellString v) = cellString v) := by
  constructor
  · intro h
    rw [escapeCell, if_pos ((needsQuoting_iff _).mpr h), doubleQuotes_flatMap]
  · intro h
    rw [escapeCell, if_neg (fun hh => h ((needsQuoting_iff _).mp hh))]

/-- C4 witness: a value containing a comma and a double quote is wrapped
with its quote doubled, a plain value is emitted unchanged. -/
theorem convertToCSV_quoting_witness :
    escapeCell (cellString (some (.str "a,\"b"))) = "\"" ++
      String.mk ((cellString (some (.str "a,\"b"))).data.flatMap
        (fun c => if c = '"' then ['"', '"'] else [c])) ++ "\"" ∧
    escapeCell (cellString (some (.str "ab"))) = cellString (some (.str "ab")) :=
  ⟨(convertToCSV_quoting (some (.str "a,\"b"))).1 (by decide),
   (convertToCSV_quoting (some (.str "ab"))).2 (by decide)⟩

/- ===== CSV reader inverts the serializer ===== -/

lemma csvRun_append (st : CsvState) (a b : List Char) :
    csvRun st (a ++ b) = csvRun (csvRun st a) b := by
  induction a generalizing st with
  | nil => rfl
  | cons c cs ih =>
    show csvRun (csvStep st c) (cs ++ b) = csvRun (csvRun (csvStep st c) cs) b
    exact ih _

lemma mk_data (s : String) : String.mk s.data = s := rfl

lemma data_split_comma (a b : String) :
    (a ++ "," ++ b).data = a.data ++ (',' :: b.data) := by
  simp [String.data_append]

lemma data_split_newline (a b : String) :
    (a ++ "\n" ++ b).data = a.data ++ ('\n' :: b.data) := by
  simp [String.data_append]

lemma csvStep_safe (cur : List Char) (row : List String) (rows : List (List String))
    (jc : Bool) (c : Char) (h1 : c ≠ ',') (h2 : c ≠ '\n') (h3 : c ≠ '"') :
    csvStep ⟨cur, row, rows, false, jc⟩ c = ⟨cur ++ [c], row, rows, false, false⟩ := by
  simp [csvStep, h1, h2, h3]

lemma csvStep_comma (cur : List Char) (row : List String) (rows : List (List String))
    (jc : Bool) :
    csvStep ⟨cur, row, rows, false, jc⟩ ','
      = ⟨[], row ++ [String.mk cur], rows, false, false⟩ := by
  simp [csvStep, show (',' : Char) ≠ '"' by decide]

lemma csvStep_newline (cur : List Char) (row : List String) (rows : List (List String))
    (jc : Bool) :
    csvStep ⟨cur, row, rows, false, jc⟩ '\n'
      = ⟨[], [], rows ++ [row ++ [String.mk cur]], false, false⟩ := by
  simp [csvStep, show ('\n' : Char) ≠ '"' by decide, show ('\n' : Char) ≠ ',' by decide]

lemma csvStep_quote_neutral (cur : List Char) (row : List String)
    (rows : List (List String)) :
    csvStep ⟨cur, row, rows, false, false⟩ '"' = ⟨cur, row, rows, true, false⟩ := by
  simp [csvStep, show ('"' : Char) ≠ ',' by decide, show ('"' : Char) ≠ '\n' by decide]

lemma csvStep_quote_inQ (cur : List Char) (row : List String)
    (rows : List (List String)) :
    csvStep ⟨cur, row, rows, true, false⟩ '"' = ⟨cur, row, rows, false, true⟩ := by
  simp [csvStep]

lemma csvStep_char_inQ (cur : List Char) (row : List String) (rows : List (List String))
    (c : Char) (h : c ≠ '"') :
    csvStep ⟨cur, row, rows, true, false⟩ c = ⟨cur ++ [c], row, rows, true, false⟩ := by
  simp [csvStep, h]

lemma csvStep_quote_justClosed (cur : List Char) (row : List String)
    (rows : List (List String)) :
    csvStep ⟨cur, row, rows, false, true⟩ '"' = ⟨cur ++ ['"'], row, rows, true, false⟩ := by
  simp [csvStep]

lemma csvRun_safe (l : List Char) (h : ∀ c ∈ l, c ≠ ',' ∧ c ≠ '\n' ∧ c ≠ '"')
    (cur : List Char) (row : List String) (rows : List (List String)) :
    csvRun ⟨cur, row, rows, false, false⟩ l = ⟨cur ++ l, row, rows, false, false⟩ := by
  induction l generalizing cur with
  | nil => simp [csvRun]
  | cons c cs ih =>
    obtain ⟨h1, h2, h3⟩ := h c (by simp)
    rw [csvRun, csvStep_safe cur row rows false c h1 h2 h3,
      ih (fun c2 hc2 => h c2 (by simp [hc2]))]
    simp

lemma csvRun_quoted (l : List Char) (cur : List Char) (row : List String)
    (rows : List (List String)) :
    csvRun ⟨cur, row, rows, true, false⟩ (doubleQuotesChars l)
      = ⟨cur ++ l, row, rows, true, false⟩ := by
  induction l generalizing cur with
  | nil => simp [doubleQuotesChars, csvRun]
  | cons c cs ih =>
    by_cases h : c = '"'
    · subst h
      rw [show doubleQuotesChars ('"' :: cs) = '"' :: '"' :: doubleQuotesChars cs from rfl,
        csvRun, csvStep_quote_inQ, csvRun, csvStep_quote_justClosed, ih]
      simp
    · rw [show doubleQuotesChars (c :: cs) = c :: doubleQuotesChars cs by
          simp [doubleQuotesChars, h],
        csvRun, csvStep_char_inQ cur row rows c h, ih]
      simp

lemma safe_of_not_quoting (s : String) (h : ¬ needsQuoting s = true) :
    ∀ c ∈ s.data, c ≠ ',' ∧ c ≠ '\n' ∧ c ≠ '"' := by
  intro c hc
  refine ⟨?_, ?_, ?_⟩ <;> intro he <;> subst he <;> exact h ((needsQuoting_iff s).mpr
    (by first
      | exact Or.inl hc
      | exact Or.inr (Or.inl hc)
      | exact Or.inr (Or.inr hc)))

lemma escapeCell_data_of_quoting (s : String) (h : needsQuoting s = true) :
    (escapeCell s).data = '"' :: (doubleQuotesChars s.data ++ ['"']) := by
  rw [escapeCell, if_pos h]
  simp [String.data_append]

lemma csvRun_cell (s : String) (row : List String) (rows : List (List String)) :
    ∃ jc, csvRun ⟨[], row, rows, false, false⟩ (escapeCell s).data
      = ⟨s.data, row, rows, false, jc⟩ := by
  by_cases h : needsQuoting s = true
  · refine ⟨true, ?_⟩
    rw [escapeCell_data_of_quoting s h, csvRun, csvStep_quote_neutral, csvRun_append,
      csvRun_quoted]
    simp only [List.nil_append, csvRun, csvStep_quote_inQ]
  · refine ⟨false, ?_⟩
    rw [show escapeCell s = s from by rw [escapeCell, if_neg h]]
    simpa using csvRun_safe s.data (safe_of_not_quoting s h) [] row rows

lemma dropLast_getLastD (x : String) (cells : List String) :
    (x :: cells).dropLast ++ [cells.getLastD x] = x :: cells := by
  induction cells generalizing x with
  | nil => rfl
  | cons y t ih => simp only [List.dropLast_cons₂, List.getLastD_cons, List.cons_append, ih]

lemma csvRun_row (cells : List String) (x : String) (row : List String)
    (rows : List (List String)) :
    ∃ jc, csvRun ⟨[], row, rows, false, false⟩
        (joinSep "," ((x :: cells).map escapeCell)).data
      = ⟨(cells.getLastD x).data, row ++ (x :: cells).dropLast, rows, false, jc⟩ := by
  induction cells generalizing x row with
  | nil =>
    obtain ⟨jc, hjc⟩ := csvRun_cell x row rows
    refine ⟨jc, ?_⟩
    simpa [joinSep] using hjc
  | cons y t ih =>
    simp only [List.map_cons]
    rw [joinSep_cons]
    obtain ⟨jc1, h1⟩ := csvRun_cell x row rows
    obtain ⟨jc2, h2⟩ := ih y (row ++ [x])
    simp only [List.map_cons] at h2
    refine ⟨jc2, ?_⟩
    rw [data_split_comma, csvRun_append, h1, csvRun, csvStep_comma, mk_data, h2,
      List.getLastD_cons, List.dropLast_cons₂]
    simp

lemma csvRun_grid (g : List (List String)) (x0 : List String) (hx : x0 ≠ [])
    (hg : ∀ q ∈ g, q ≠ []) (rows : List (List String)) :
    csvClose (csvRun ⟨[], [], rows, false, false⟩
      (joinSep "\n" ((x0 :: g).map (fun q => joinSep "," (q.map escapeCell)))).data)
    = rows ++ x0 :: g := by
  induction g generalizing x0 rows with
  | nil =>
    obtain ⟨x, cells, rfl⟩ := List.exists_cons_of_ne_nil hx
    obtain ⟨jc, h1⟩ := csvRun_row cells x [] rows
    simp only [List.map_cons] at h1
    simp only [List.map_cons, List.map_nil, joinSep]
    rw [h1, csvClose]
    simp only [mk_data, List.nil_append]
    rw [dropLast_getLastD]
  | cons q g2 ih =>
    obtain ⟨x, cells, rfl⟩ := List.exists_cons_of_ne_nil hx
    obtain ⟨jc, h1⟩ := csvRun_row cells x [] rows
    simp only [List.map_cons] at h1
    simp only [List.map_cons]
    rw [joinSep_cons, data_split_newline, csvRun_append, h1, csvRun, csvStep_newline]
    have hih := ih q (hg q (by simp)) (fun q2 hq2 => hg q2 (by simp [hq2]))
      (rows ++ [([] ++ (x :: cells).dropLast) ++ [String.mk (cells.getLastD x).data]])
    simp only [List.map_cons] at hih
    rw [hih]
    simp only [mk_data, List.nil_append]
    rw [dropLast_getLastD]
    simp

/-- C5: for every non-empty record sequence whose keys are plain (no comma,
newline or double quote in a key of the first record), parsing the produced
CSV document under standard CSV rules yields exactly the header row followed
by, for each record, the original stringified value of every projected cell,
commas, double quotes and newlines in the values included. -/
theorem convertToCSV_round_trip (r0 : Record) (rest : List Record)
    (hk : ∀ k ∈ r0.map Prod.fst, needsQuoting k = false) :
    parseCSV (convertToCSV (some (r0 :: rest)))
      = orderedHeaders r0 ::
        (r0 :: rest).map (fun row => (orderedHeaders r0).map
          (fun h => cellString (jsGet row h))) := by
  have hsafe : ∀ k ∈ orderedHeaders r0, escapeCell k = k := by
    intro k hkmem
    have hnq : needsQuoting k = false := by
      rcases List.mem_cons.mp hkmem with rfl | hkmem2
      · decide
      rcases List.mem_cons.mp hkmem2 with rfl | hkmem3
      · decide
      · exact hk k (List.mem_of_mem_filter hkmem3)
    rw [escapeCell, if_neg (by simp [hnq])]
  have hmapesc : (orderedHeaders r0).map escapeCell = orderedHeaders r0 :=
    (List.map_congr_left hsafe).trans (List.map_id _)
  have hgrid : convertToCSV (some (r0 :: rest))
      = joinSep "\n" ((orderedHeaders r0 ::
          (r0 :: rest).map (fun row => (orderedHeaders r0).map
            (fun h => cellString (jsGet row h)))).map
          (fun q => joinSep "," (q.map escapeCell))) := by
    simp only [convertToCSV, List.map_cons, List.map_map, hmapesc, csvCells,
      Function.comp_def]
  rw [hgrid, parseCSV]
  have hrun := csvRun_grid
    ((r0 :: rest).map (fun row => (orderedHeaders r0).map
      (fun h => cellString (jsGet row h))))
    (orderedHeaders r0) (by simp [orderedHeaders])
    (by
      intro q hq
      obtain ⟨row, _, rfl⟩ := List.mem_map.mp hq
      simp [orderedHeaders]) []
  simpa [csvInit] using hrun

/-- C5 witness: a document whose values contain a comma, a double quote and
a newline parses back to exactly the original cell strings. -/
theorem convertToCSV_round_trip_witness :
    parseCSV (convertToCSV (some [[("a", JsVal.str "x,y"), ("b", JsVal.str "he said \"hi\""),
        ("c", JsVal.str "l1\nl2")], [("a", JsVal.num 5)]]))
      = orderedHeaders [("a", JsVal.str "x,y"), ("b", JsVal.str "he said \"hi\""),
          ("c", JsVal.str "l1\nl2")] ::
        [[(("a" : String), JsVal.str "x,y"), ("b", JsVal.str "he said \"hi\""),
          ("c", JsVal.str "l1\nl2")], [("a", JsVal.num 5)]].map
          (fun row => (orderedHeaders [("a", JsVal.str "x,y"),
              ("b", JsVal.str "he said \"hi\""), ("c", JsVal.str "l1\nl2")]).map
            (fun h => cellString (jsGet row h))) :=
  convertToCSV_round_trip _ _ (by decide)

/-- C8: for a start and end date naming the same calendar day, the computed
from timestamp (epoch second of local midnight starting the day) is strictly
below the computed to timestamp (epoch second of 23:59:59.999 local time on
the day) whenever the UTC offset does not jump by a full day within the day,
so the date-range validation passes. -/
theorem date_range_valid (y m d off1 off2 : Int) (hoff : off2 - off1 ≤ 86398999) :
    fromTimestamp y m d off1 < toTimestamp y m d off2 := by
  simp only [fromTimestamp, toTimestamp]
  omega

/-- C8 witness: 2024-01-01 to 2024-01-01 in a fixed-offset locale. -/
theorem date_range_valid_witness :
    fromTimestamp 2024 1 1 0 < toTimestamp 2024 1 1 0 :=
  date_range_valid 2024 1 1 0 0 (by decide)

/- ===== Button re-enabling ===== -/

lemma tryBody_no_button (symbols : String) (inp : FormInputs) (outcome : FetchOutcome)
    (support : Bool) :
    ∀ e ∈ tryBody symbols inp outcome support, isButtonEvent e = false := by
  intro e he
  cases outcome <;>
    simp only [tryBody, updateStatus, downloadCSV] at he <;>
    repeat' split at he
  all_goals (cases e <;> simp_all [isButtonEvent])

lemma filter_button_nil (l : List UiEvent) (h : ∀ e ∈ l, isButtonEvent e = false) :
    l.filter isButtonEvent = [] := by
  induction l with
  | nil => rfl
  | cons e t ih =>
    rw [List.filter_cons, if_neg (by simp [h e (by simp)]), ih (fun e2 he2 => h e2 (by simp [he2]))]

/-- C9: in every run of fetchAndDownload that disables the fetch control,
the last button event of the run is the re-enabling of the control,
whichever branch is taken (success, empty result, parse failure,
serialization failure or thrown error): the control never ends disabled. -/
theorem fetchAndDownload_button (inp : FormInputs) (outcome : FetchOutcome)
    (off1 off2 : Int) (support : Bool)
    (hdis : UiEvent.disableButton ∈ fetchAndDownload inp outcome off1 off2 support) :
    ((fetchAndDownload inp outcome off1 off2 support).filter isButtonEvent).getLast?
      = some UiEvent.enableButton := by
  simp only [fetchAndDownload] at hdis ⊢
  by_cases hv : jsTrim inp.apiKey = "" ∨ jsTrim inp.symbols = "" ∨
      inp.startDateStr = "" ∨ inp.endDateStr = ""
  · rw [if_pos hv] at hdis
    simp [updateStatus] at hdis
  · rw [if_neg hv] at hdis ⊢
    rcases hs : parseDateYMD inp.startDateStr with _ | ⟨ys, ms, ds⟩ <;>
      rcases he2 : parseDateYMD inp.endDateStr with _ | ⟨ye, me, de⟩ <;>
      rw [hs, he2] at hdis <;> dsimp only at hdis ⊢
    · simp [updateStatus] at hdis
    · simp [updateStatus] at hdis
    · simp [updateStatus] at hdis
    · split_ifs with hge
      · simp [updateStatus, hge] at hdis
      · have hnil := filter_button_nil _
          (tryBody_no_button (jsTrim inp.symbols) inp outcome support)
        simp [List.filter_cons, List.filter_append, isButtonEvent, hnil, updateStatus,
          List.getLast?]
  
/-- C9 witness: a run on a well-formed request that found no data disables
and then re-enables the control. -/
theorem fetchAndDownload_button_witness :
    ((fetchAndDownload ⟨"k", "BTCUSD", "1hour", "2024-01-01", "2024-01-02", false⟩
        (.success .nullish) 0 0 true).filter isButtonEvent).getLast?
      = some UiEvent.enableButton :=
  fetchAndDownload_button _ _ _ _ _ (by decide)

/- ===== Anchor checks of the calendar and end-to-end model ===== -/

example : civilFromDays 0 = (1970, 1, 1) := by decide

example : daysFromCivil 1970 1 1 = 0 := by decide

example : civilFromDays 11016 = (2000, 2, 29) := by decide

example : toISOString 1700000000000 = some "2023-11-14T22:13:20.000Z" := by decide

example : toISOString 0 = some "1970-01-01T00:00:00.000Z" := by decide

example : toISOString (-1) = some "1969-12-31T23:59:59.999Z" := by decide

example : toISOString 8640000000000001 = none := by decide

example :
    parseLiquidationData (.arr [.data ⟨some (.str "BTCUSD"),
        .arr [[("t", .num 1700000000000), ("l", .num 100), ("s", .num 50)]]⟩])
      = .ok [[("t", .num 1700000000000), ("l", .num 100), ("s", .num 50),
          ("symbol", .str "BTCUSD"),
          ("timestamp_iso", .str "2023-11-14T22:13:20.000Z")]] := by decide

example :
    convertToCSV (some [[("t", JsVal.num 1700000000000), ("l", .num 100), ("s", .num 50),
        ("symbol", .str "BTCUSD"), ("timestamp_iso", .str "2023-11-14T22:13:20.000Z")]])
      = "symbol,timestamp_iso,t,l,s\nBTCUSD,2023-11-14T22:13:20.000Z,1700000000000,100,50" := by
  decide

example :
    fetchAndDownload ⟨"k", "BTCUSD", "1hour", "2024-01-01", "2024-01-02", false⟩
        (.httpError 429 "Too Many Requests" (some (some "rate limited"))) 0 0 true
      = [.disableButton,
         .statusMsg "Fetching data for BTCUSD from 2024-01-01 to 2024-01-02..." "info",
         .statusMsg "Error: Error 429: rate limited" "error",
         .enableButton] := by decide
